import Mathlib

/-!
Verification of the runtime CPU-dispatch mechanism of the vector class
library's `easy_dispatch` subsystem (easy_dispatch.h / easy_dispatch.cpp).

The C++ code is a pair of function templates:

  * `vcl_select<T, f, fs..., i, is...>(n)` walks the parallel packs
    `(i, is...)` of instruction-set levels and `(f, fs...)` of function
    pointers and is supposed to pick an implementation for detected level
    `n`.  We embed the two packs as a single list of `(level, entry)`
    pairs, generic in the entry type, mirroring the template's genericity
    in `T`.

  * `vcl_dispatch<T, ptr, Instrsets, fs...>(a...)` runs on the first call
    through the dispatch slot `vcl_<fun>_ptr`: it stores the selection
    result into the slot and forwards the call to the selected
    implementation.  We embed the slot as an explicit state value and the
    wrapper generated by `VCL_DISPATCH` as a step function on it.

Machine pointers that can be null are embedded as `Option`; the C++
`nullptr` is `none`.
-/

namespace EasyDispatch

/-- Embedding of `vcl_select` (easy_dispatch.h, lines 127-138).  The base
case (singleton pack) is `return f; // in any case return the last
possibility`; the recursive case first recurses on the tail (`transverse
the list from the end`), returns that result `g` if it is non-null, else
returns `f` when `i <= n`, else null.  The empty-list case cannot be
instantiated in C++ (no matching overload) and is embedded as `none`. -/
def vcl_select {α : Type} (n : Int) : List (Int × α) → Option α
  | [] => none
  | [(_, f)] => some f
  | (i, f) :: q :: V =>
    match vcl_select n (q :: V) with
    | some g => some g
    | none => if i ≤ n then some f else none

/-- Key behaviour of the source's `vcl_select`: on every list it returns
the last entry of the pack (or `none` on the empty list), independently of
the detected level `n`. -/
theorem vcl_select_eq_getLast {α : Type} (n : Int) :
    ∀ V : List (Int × α), vcl_select n V = V.getLast?.map Prod.snd := by
  intro V
  induction V with
  | nil => rfl
  | cons p V ih =>
    cases V with
    | nil =>
      cases p
      rfl
    | cons q W =>
      obtain ⟨i, f⟩ := p
      obtain ⟨x, hx⟩ : ∃ x, (q :: W).getLast? = some x := by
        cases h : (q :: W).getLast? with
        | none => exact absurd (List.getLast?_eq_none_iff.mp h) (by simp)
        | some y => exact ⟨y, rfl⟩
      have hsel : vcl_select n (q :: W) = some x.2 := by
        rw [ih, hx]
        rfl
      have hlast : ((i, f) :: q :: W).getLast? = some x := by
        rw [List.getLast?_cons_cons]
        exact hx
      rw [vcl_select, hsel, hlast]
      rfl

/-- The value held by the dispatch slot `vcl_<fun>_ptr`, a `T *` in C++.
It initially holds the address of the `vcl_dispatch` instantiation (the
selection trampoline, easy_dispatch.h lines 176-179), after the first call
it holds whatever `vcl_select` returned: one of the compiled entry points,
or the null pointer if `vcl_select` returned `nullptr`. -/
inductive SlotVal (α : Type) : Type
  | trampoline : SlotVal α
  | entry : α → SlotVal α
  | null : SlotVal α
deriving DecidableEq

/-- A `T *` result of `vcl_select` as stored into the slot: a non-null
pointer becomes a resolved entry, `nullptr` becomes a null slot. -/
def toSlot {α : Type} : Option α → SlotVal α
  | some e => SlotVal.entry e
  | none => SlotVal.null

/-- Embedding of `vcl_dispatch` (easy_dispatch.h, lines 140-145): on a
call that reaches the trampoline it stores the result of
`vcl_select<T, fs...>(instrset_detect(), Instrsets())` into the slot and
forwards the current call to the selected implementation `f` (per the
source comment, lines 147-156, `f` is the selected implementation).
Result: the new slot value and the entry point the call is forwarded to
(`none` when the selection produced a null pointer, in which case no
entry point runs).  `n` is the detected instruction-set level and `V` the
paired packs `Instrsets` / `fs...`. -/
def vcl_dispatch {α : Type} (n : Int) (V : List (Int × α)) :
    SlotVal α × Option α :=
  (toSlot (vcl_select n V), vcl_select n V)

/-- One call of the inline wrapper generated by `VCL_DISPATCH`
(easy_dispatch.h, lines 87-89): the wrapper calls through the slot.  If
the slot is already resolved the resolved entry point runs directly; if
the slot still holds the trampoline, `vcl_dispatch` runs.  The result is
the slot after the call, the entry point that was invoked (if any), and
how many times the selection routine fired during this call. -/
def vcl_call {α : Type} (n : Int) (V : List (Int × α)) :
    SlotVal α → SlotVal α × Option α × Nat
  | SlotVal.entry e => (SlotVal.entry e, some e, 0)
  | SlotVal.trampoline => ((vcl_dispatch n V).1, (vcl_dispatch n V).2, 1)
  | SlotVal.null => (SlotVal.null, none, 0)

/-- Slot states reachable during one process's lifetime for one logical
function on a host with stable detected level `n`: the slot starts at the
trampoline (static initializer, easy_dispatch.h line 179) and each call of
the wrapper steps it. -/
inductive Reachable {α : Type} (n : Int) (V : List (Int × α)) :
    SlotVal α → Prop
  | init : Reachable n V SlotVal.trampoline
  | step {s : SlotVal α} : Reachable n V s → Reachable n V (vcl_call n V s).1

/-- The variant list is sorted strictly ascending by instruction-set
level, the documented precondition (`order must be ascending!`). -/
def Ascending {α : Type} (V : List (Int × α)) : Prop :=
  List.Chain' (fun p q => p.1 < q.1) V

/-- Instrumentation for stating level monotonicity: pair each entry with
its own level, so that the very same generic `vcl_select` reports which
level it picked.  `vcl_select` is generic in the entry type exactly as the
C++ template is generic in `T`. -/
def withLevels {α : Type} (V : List (Int × α)) : List (Int × (Int × α)) :=
  V.map (fun p => (p.1, p))

/-- The message of `vcl_dispatch_exception::what()`
(easy_dispatch.cpp, lines 22-24).  The class is implemented in the
repository, but nothing in `vcl_select` or `vcl_dispatch`
(easy_dispatch.h, lines 127-145) constructs or throws it. -/
def vcl_dispatch_exception_what : String :=
  "Processor does not support least required instruction set"

/-- Two threads racing through the first call on the same host: each runs
the trampoline `vcl_dispatch` independently at the same detected level
`n`; both store their selection into the shared slot, in either order,
the later store overwriting the earlier.  `firstA` says whether thread
A's store lands first.  Result: the final slot value and the entry point
each of the two threads forwarded its call to. -/
def raceFirstCalls {α : Type} (n : Int) (V : List (Int × α)) (firstA : Bool) :
    SlotVal α × Option α × Option α :=
  let dA := vcl_dispatch n V
  let dB := vcl_dispatch n V
  (if firstA then dB.1 else dA.1, dA.2, dB.2)

/-- Helper: on a non-empty list `vcl_select` returns the second component
of the last pair, for every detected level. -/
theorem vcl_select_eq_last {α : Type} (n : Int) (V : List (Int × α))
    (h : V ≠ []) : vcl_select n V = some (V.getLast h).2 := by
  rw [vcl_select_eq_getLast, List.getLast?_eq_getLast V h]
  rfl

/-- Helper: in a strictly ascending list the last pair carries the
greatest level. -/
theorem last_level_max {α : Type} :
    ∀ (V : List (Int × α)) (h : V ≠ []), Ascending V →
      ∀ p ∈ V, p.1 ≤ (V.getLast h).1 := by
  intro V
  induction V with
  | nil => intro h; exact absurd rfl h
  | cons q V ih =>
    intro h ha p hp
    cases V with
    | nil =>
      have hpq : p = q := List.mem_singleton.mp hp
      subst hpq
      simp
    | cons r W =>
      have hrw : r :: W ≠ [] := by simp
      have ha2 : q.1 < r.1 ∧ Ascending (r :: W) := List.chain'_cons.mp ha
      have hlast : ((q :: r :: W).getLast h) = ((r :: W).getLast hrw) :=
        List.getLast_cons hrw
      rcases List.mem_cons.mp hp with hp | hp
      · subst hp
        have := ih hrw ha2.2 r (List.mem_cons_self r W)
        rw [hlast]
        exact le_of_lt (lt_of_lt_of_le ha2.1 this)
      · rw [hlast]
        exact ih hrw ha2.2 p hp

/-- C1: evaluation of `vcl_select` at a failing input for the documented
selection policy.  On the ascending list [(2, A), (5, B)] with detected
level 3 the documented policy (greatest level <= 3) demands A, and with
detected level 0 the documented fallback-to-minimum demands A as well;
the code returns the highest entry B in both cases. -/
theorem vcl_select_ignores_detected_level_eval :
    vcl_select 3 [((2 : Int), "A"), (5, "B")] = some "B" ∧
    vcl_select 0 [((2 : Int), "A"), (5, "B")] = some "B" :=
  ⟨rfl, rfl⟩

/-- C2: evaluation of `vcl_select` on the end-to-end scenario list
[(2, A), (5, B), (8, C), (10, D)].  The claim expects B at level 7, D at
level 10, A at level 0 and D at level 11; the code returns D at every
level, so the claim fails at levels 7 and 0. -/
theorem vcl_select_scenario_eval :
    vcl_select 7 [((2 : Int), "A"), (5, "B"), (8, "C"), (10, "D")]
        = some "D" ∧
    vcl_select 10 [((2 : Int), "A"), (5, "B"), (8, "C"), (10, "D")]
        = some "D" ∧
    vcl_select 0 [((2 : Int), "A"), (5, "B"), (8, "C"), (10, "D")]
        = some "D" ∧
    vcl_select 11 [((2 : Int), "A"), (5, "B"), (8, "C"), (10, "D")]
        = some "D" :=
  ⟨rfl, rfl, rfl, rfl⟩

/-- C3: evaluation of the first dispatched call at a failing input for
the documented fatal path.  With the single compiled tier 5 and detected
host level 2 (below the minimum), the claim demands that the call raise
the dispatch exception and invoke no entry point; the code resolves the
slot to the level-5 entry B and forwards the call to it, and no code
path in `vcl_select` or `vcl_dispatch` constructs the exception whose
message is `vcl_dispatch_exception_what`. -/
theorem vcl_call_below_min_invokes_entry_eval :
    vcl_call 2 [((5 : Int), "B")] SlotVal.trampoline
      = (SlotVal.entry "B", some "B", 1) :=
  rfl

/-- C4: as implemented, on every non-empty ascending variant list and
every detected level `n`, `vcl_select` returns the last entry of the
list (whose level is the greatest, by ascendingness), the result is
never the null pointer, and the selection does not depend on `n` at
all. -/
theorem vcl_select_always_last {α : Type} (n : Int) (V : List (Int × α))
    (h : V ≠ []) (ha : Ascending V) :
    vcl_select n V = some (V.getLast h).2 ∧
    vcl_select n V ≠ none ∧
    (∀ m : Int, vcl_select m V = vcl_select n V) ∧
    (∀ p ∈ V, p.1 ≤ (V.getLast h).1) := by
  refine ⟨vcl_select_eq_last n V h, ?_, ?_, last_level_max V h ha⟩
  · rw [vcl_select_eq_last n V h]
    simp
  · intro m
    rw [vcl_select_eq_last n V h, vcl_select_eq_last m V h]

/-- C4 witness: the general theorem instantiated on the concrete
ascending list [(2, 10), (5, 20)] at detected levels 0 and 7. -/
theorem vcl_select_always_last_witness :
    vcl_select 0 [((2 : Int), (10 : Nat)), (5, 20)] = some 20 ∧
    vcl_select 7 [((2 : Int), (10 : Nat)), (5, 20)]
      = vcl_select 0 [((2 : Int), (10 : Nat)), (5, 20)] ∧
    (2 : Int) ≤ 5 := by
  have h := vcl_select_always_last 0 [((2 : Int), (10 : Nat)), (5, 20)]
    (by decide) (by norm_num [Ascending])
  exact ⟨h.1, h.2.2.1 7, h.2.2.2 (2, 10) (by decide)⟩

/-- C5: calling the dispatched function twice in sequence on the same
host: the first call through the trampoline resolves the slot to the
selected entry point `e`, forwards the call to `e`, and fires the
selection routine once; the second call finds the resolved slot, goes
directly to the same `e`, and fires the selection routine zero times. -/
theorem vcl_call_idempotent {α : Type} (n : Int) (V : List (Int × α))
    (h : V ≠ []) :
    ∃ e, vcl_select n V = some e ∧
      vcl_call n V SlotVal.trampoline = (SlotVal.entry e, some e, 1) ∧
      vcl_call n V (SlotVal.entry e) = (SlotVal.entry e, some e, 0) := by
  refine ⟨(V.getLast h).2, vcl_select_eq_last n V h, ?_, rfl⟩
  show ((vcl_dispatch n V).1, (vcl_dispatch n V).2, 1) = _
  rw [vcl_dispatch, vcl_select_eq_last n V h]
  rfl

/-- C5 witness: the idempotence theorem instantiated on the concrete
list [(2, A), (5, B)] at detected level 7, where the selected entry
evaluates to B. -/
theorem vcl_call_idempotent_witness :
    vcl_call 7 [((2 : Int), "A"), (5, "B")] SlotVal.trampoline
      = (SlotVal.entry "B", some "B", 1) ∧
    vcl_call 7 [((2 : Int), "A"), (5, "B")] (SlotVal.entry "B")
      = (SlotVal.entry "B", some "B", 0) := by
  obtain ⟨e, he, h1, h2⟩ :=
    vcl_call_idempotent 7 [((2 : Int), "A"), (5, "B")] (by decide)
  have h0 : vcl_select 7 [((2 : Int), "A"), (5, "B")] = some "B" := rfl
  have hB : e = "B" := Option.some.inj (he.symm.trans h0)
  subst hB
  exact ⟨h1, h2⟩

/-- C6: every slot state reachable from the initial trampoline state is
either the trampoline or a resolved entry drawn from the variant list;
it is never the null pointer, and a resolved slot is left unchanged by
every further call (it never reverts to the trampoline). -/
theorem slot_state_invariant {α : Type} (n : Int) (V : List (Int × α))
    (h : V ≠ []) (s : SlotVal α) (hs : Reachable n V s) :
    (s = SlotVal.trampoline ∨
      ∃ e, e ∈ V.map Prod.snd ∧ s = SlotVal.entry e) ∧
    s ≠ SlotVal.null ∧
    (∀ e, s = SlotVal.entry e → (vcl_call n V s).1 = SlotVal.entry e) := by
  induction hs with
  | init =>
    refine ⟨Or.inl rfl, by simp, ?_⟩
    intro e he
    cases he
  | step hs ih =>
    rcases ih.1 with htr | ⟨e, hmem, hentry⟩
    · subst htr
      have hstep : (vcl_call n V SlotVal.trampoline).1
          = SlotVal.entry (V.getLast h).2 := by
        show (vcl_dispatch n V).1 = _
        rw [vcl_dispatch, vcl_select_eq_last n V h]
        rfl
      rw [hstep]
      refine ⟨Or.inr ⟨(V.getLast h).2, ?_, rfl⟩, by simp, ?_⟩
      · exact List.mem_map_of_mem Prod.snd (List.getLast_mem h)
      · intro e he
        rw [he]
        rfl
    · subst hentry
      have hstep : (vcl_call n V (SlotVal.entry e)).1 = SlotVal.entry e :=
        rfl
      rw [hstep]
      refine ⟨Or.inr ⟨e, hmem, rfl⟩, by simp, ?_⟩
      intro g hg
      rw [hg]
      rfl

/-- C6 witness: the invariant instantiated on the concrete list
[(2, A), (5, B)] at detected level 7, at the state reached after one
call: the slot is not null. -/
theorem slot_state_invariant_witness :
    (vcl_call 7 [((2 : Int), "A"), (5, "B")] SlotVal.trampoline).1
      ≠ SlotVal.null :=
  (slot_state_invariant 7 [((2 : Int), "A"), (5, "B")] (by decide)
    _ (Reachable.step Reachable.init)).2.1

/-- C7: on every non-empty ascending variant list and every detected
level, the selection returns some entry point that is a member of the
variant list; the null pointer never escapes to the caller. -/
theorem vcl_select_total_and_member {α : Type} (n : Int)
    (V : List (Int × α)) (h : V ≠ []) (ha : Ascending V) :
    ∃ e, vcl_select n V = some e ∧ e ∈ V.map Prod.snd :=
  ⟨(V.getLast h).2, vcl_select_eq_last n V h,
    List.mem_map_of_mem Prod.snd (List.getLast_mem h)⟩

/-- C7 witness: the totality theorem instantiated on the concrete list
[(2, A), (5, B)] at detected level 7, where the member returned
evaluates to B. -/
theorem vcl_select_total_and_member_witness :
    vcl_select 7 [((2 : Int), "A"), (5, "B")] = some "B" ∧
    "B" ∈ ([((2 : Int), "A"), (5, "B")]).map Prod.snd := by
  obtain ⟨e, he, hm⟩ :=
    vcl_select_total_and_member 7 [((2 : Int), "A"), (5, "B")]
      (by decide) (by norm_num [Ascending])
  have h0 : vcl_select 7 [((2 : Int), "A"), (5, "B")] = some "B" := rfl
  have hB : e = "B" := Option.some.inj (he.symm.trans h0)
  subst hB
  exact ⟨he, hm⟩

/-- C8: on a singleton variant list, `vcl_select` returns the single
entry at every detected level, including levels strictly below the
entry's own level. -/
theorem vcl_select_singleton {α : Type} (i n : Int) (f : α) :
    vcl_select n [(i, f)] = some f :=
  rfl

/-- C9: level monotonicity of the selection.  Running the same generic
`vcl_select` on the list instrumented with its own levels, for a fixed
non-empty ascending list and detected levels n1 <= n2, the level picked
at n2 is at least the level picked at n1. -/
theorem vcl_select_level_monotone {α : Type} (V : List (Int × α))
    (n1 n2 : Int) (h : V ≠ []) (ha : Ascending V) (hn : n1 ≤ n2)
    (l1 l2 : Int) (e1 e2 : α)
    (h1 : vcl_select n1 (withLevels V) = some (l1, e1))
    (h2 : vcl_select n2 (withLevels V) = some (l2, e2)) :
    l1 ≤ l2 := by
  have hw : withLevels V ≠ [] := by
    intro hc
    exact h (List.map_eq_nil_iff.mp hc)
  have g1 := (vcl_select_eq_last n1 (withLevels V) hw).symm.trans h1
  have g2 := (vcl_select_eq_last n2 (withLevels V) hw).symm.trans h2
  have e1eq := Option.some.inj g1
  have e2eq := Option.some.inj g2
  have : (l1, e1) = (l2, e2) := e1eq.symm.trans e2eq
  rw [(Prod.mk.injEq _ _ _ _).mp this |>.1]

/-- C9 witness: the monotonicity theorem instantiated on the concrete
list [(2, A), (5, B)] at detected levels 0 <= 7; both selected levels
evaluate to 5. -/
theorem vcl_select_level_monotone_witness :
    vcl_select 0 (withLevels [((2 : Int), "A"), (5, "B")])
      = some ((5 : Int), "B") ∧
    (5 : Int) ≤ 5 :=
  ⟨rfl, vcl_select_level_monotone [((2 : Int), "A"), (5, "B")] 0 7
    (by decide) (by norm_num [Ascending]) (by decide) 5 5 "B" "B" rfl rfl⟩

/-- C10: the selection is a pure function of the detected level and the
variant list, so two threads racing through the first call compute the
same entry point and, whichever store lands last, the shared slot ends
resolved to that same entry point, which is exactly the value of
`vcl_select`. -/
theorem vcl_select_race_deterministic {α : Type} (n : Int)
    (V : List (Int × α)) (o1 o2 : Bool) (h : V ≠ []) :
    raceFirstCalls n V o1 = raceFirstCalls n V o2 ∧
    ∃ e, vcl_select n V = some e ∧
      raceFirstCalls n V o1 = (SlotVal.entry e, some e, some e) := by
  have hsel := vcl_select_eq_last n V h
  have hval : ∀ o : Bool, raceFirstCalls n V o
      = (SlotVal.entry (V.getLast h).2, some (V.getLast h).2,
         some (V.getLast h).2) := by
    intro o
    cases o <;> simp [raceFirstCalls, vcl_dispatch, hsel, toSlot]
  refine ⟨(hval o1).trans (hval o2).symm, (V.getLast h).2, hsel, hval o1⟩

/-- C10 witness: the race theorem instantiated on the concrete list
[(2, A), (5, B)] at detected level 7 with the two store orders. -/
theorem vcl_select_race_deterministic_witness :
    raceFirstCalls 7 [((2 : Int), "A"), (5, "B")] true
      = raceFirstCalls 7 [((2 : Int), "A"), (5, "B")] false :=
  (vcl_select_race_deterministic 7 [((2 : Int), "A"), (5, "B")]
    true false (by decide)).1

end EasyDispatch
